import Mathlib

/-
  Verification development for the circuit analysis program in src/main.py.

  The program represents an electronic circuit as an undirected graph
  (class CircuitoElectronico, backed by a networkx Graph together with two
  Python dicts: componentes mapping a node id to its component type, and
  conexiones mapping an ORDERED pair of ids to a rational weight), and an
  analysis engine (class AnalizadorHamiltoniano) offering a backtracking
  Hamiltonian path search, a cycle derivation, a boolean existence check
  and an energy efficiency evaluator.

  The embedding below follows the Python source line by line:
  - Python dicts are insertion-ordered association lists; writing to an
    existing key updates the stored value in place, a new key is appended.
  - The networkx Graph is a node list in insertion order plus per-node
    adjacency lists in edge insertion order; add_node on an existing node
    is a no-op, add_edge creates missing endpoints and permits self loops,
    inserting each endpoint into the adjacency of the other at most once.
  - Python float weights are embedded as rationals.
  - Python list truthiness (an empty list is falsy) is modelled by
    pyTruthy, and used exactly where the source tests a list for truth.
  - The unbounded recursion of the inner backtrack closure is embedded
    with a fuel parameter; the source recursion deepens the path by one
    node per level and stops at full length, so a fuel equal to the node
    count is never exhausted on any reachable call.
-/

namespace Circuitos

/-- Component identifiers are strings in the source. -/
abbrev Nodo := String

/-- Component types are opaque strings in the source. -/
abbrev Tipo := String

/-- Advisory 2D placement stored as a node attribute. -/
abbrev Posicion := Int × Int

/-- Edge weights (resistencia) of the source, Python floats, embedded as rationals. -/
abbrev Peso := Rat

/-- Python dict write: update the value in place if the key is present, else append. -/
def dictSet {α β : Type} [DecidableEq α] : List (α × β) → α → β → List (α × β)
  | [], k, v => [(k, v)]
  | (k', v') :: resto, k, v =>
      if k' = k then (k, v) :: resto else (k', v') :: dictSet resto k v

/-- Python dict read: first (and only) entry with the given key. -/
def dictGet? {α β : Type} [DecidableEq α] : List (α × β) → α → Option β
  | [], _ => none
  | (k', v') :: resto, k => if k' = k then some v' else dictGet? resto k

/-- Embedding of the networkx Graph object used by the source: node list in
insertion order, adjacency lists in edge insertion order, and the pos node
attribute written by agregar_componente. -/
structure NXGraph where
  nodes : List Nodo
  adj : List (Nodo × List Nodo)
  attrs : List (Nodo × Posicion)
  deriving DecidableEq

/-- The empty networkx graph. -/
def NXGraph.vacio : NXGraph := ⟨[], [], []⟩

/-- Neighbors of a node in edge insertion order, as networkx iterates them. -/
def vecinos (g : NXGraph) (u : Nodo) : List Nodo :=
  (dictGet? g.adj u).getD []

/-- networkx add_node: appends a fresh node with empty adjacency, no-op on an existing one. -/
def addNode (g : NXGraph) (u : Nodo) : NXGraph :=
  if u ∈ g.nodes then g
  else { g with nodes := g.nodes ++ [u], adj := g.adj ++ [(u, [])] }

/-- Insert v into the adjacency list of u unless already present. -/
def adjInsert (g : NXGraph) (u v : Nodo) : NXGraph :=
  if v ∈ vecinos g u then g
  else { g with adj := dictSet g.adj u (vecinos g u ++ [v]) }

/-- networkx add_edge: creates missing endpoints, then records each endpoint in
the adjacency of the other; a self loop yields a single adjacency entry. -/
def addEdge (g : NXGraph) (u v : Nodo) : NXGraph :=
  adjInsert (adjInsert (addNode (addNode g u) v) u v) v u

/-- networkx has_edge test, as used by encontrar_ciclo_hamiltoniano. -/
def hasEdge (g : NXGraph) (u v : Nodo) : Bool :=
  decide (v ∈ vecinos g u)

/-- Embedding of class CircuitoElectronico: a name, the networkx graph, the
componentes dict (id to type) and the conexiones dict (ordered id pair to weight). -/
structure CircuitoElectronico where
  nombre : String
  grafo : NXGraph
  componentes : List (Nodo × Tipo)
  conexiones : List ((Nodo × Nodo) × Peso)
  deriving DecidableEq

/-- Constructor of CircuitoElectronico: empty graph and empty dicts. -/
def CircuitoElectronico.nuevo (nombre : String) : CircuitoElectronico :=
  ⟨nombre, NXGraph.vacio, [], []⟩

/-- Method agregar_componente of CircuitoElectronico (src/main.py lines 20 to 25):
adds the node to the graph, records the type in componentes (overwriting any
previous entry for the same id), and stores the position attribute when one is
given. The method performs no duplicate check. -/
def agregar_componente (c : CircuitoElectronico) (idComponente : Nodo) (tipo : Tipo)
    (posicion : Option Posicion) : CircuitoElectronico :=
  let g := addNode c.grafo idComponente
  let g := match posicion with
    | some p => { g with attrs := dictSet g.attrs idComponente p }
    | none => g
  { c with grafo := g, componentes := dictSet c.componentes idComponente tipo }

/-- Method agregar_conexion of CircuitoElectronico (src/main.py lines 27 to 30):
adds the edge to the graph and stores the weight in conexiones under the
ORDERED pair. The method performs no validation of the endpoints. -/
def agregar_conexion (c : CircuitoElectronico) (comp1 comp2 : Nodo)
    (resistencia : Peso) : CircuitoElectronico :=
  { c with grafo := addEdge c.grafo comp1 comp2,
           conexiones := dictSet c.conexiones (comp1, comp2) resistencia }

/-- Python truthiness of a list: empty lists are falsy. -/
def pyTruthy (l : List Nodo) : Bool := !l.isEmpty

/-- One step of the neighbor loop inside the backtrack closure of
encontrar_camino_hamiltoniano: iterate the pending neighbors of the last node
of the path in insertion order, skip visited ones, recurse through seguir on
each unvisited one, and return the first truthy result. -/
def probarVecinos (seguir : List Nodo → List Nodo → Option (List Nodo))
    (camino visitados : List Nodo) : List Nodo → Option (List Nodo)
  | [] => none
  | vecino :: resto =>
      if vecino ∈ visitados then probarVecinos seguir camino visitados resto
      else
        match seguir (camino ++ [vecino]) (visitados ++ [vecino]) with
        | some resultado =>
            if pyTruthy resultado then some resultado
            else probarVecinos seguir camino visitados resto
        | none => probarVecinos seguir camino visitados resto

/-- The backtrack closure of encontrar_camino_hamiltoniano (src/main.py lines
56 to 68): a path of full length is returned at once, otherwise the neighbors
of the last path node are tried in order. The fuel argument bounds the
recursion depth; each level grows the path by one node, so the node count is
always sufficient fuel. -/
def backtrack (g : NXGraph) : Nat → List Nodo → List Nodo → Option (List Nodo)
  | 0, camino, _ =>
      if camino.length = g.nodes.length then some camino else none
  | Nat.succ fuel, camino, visitados =>
      if camino.length = g.nodes.length then some camino
      else probarVecinos (backtrack g fuel) camino visitados
             (vecinos g (camino.getLastD ""))

/-- The start node loop of encontrar_camino_hamiltoniano (src/main.py lines 71
to 75): try backtrack from each node in insertion order, returning the first
truthy path. -/
def probarInicios (g : NXGraph) : List Nodo → Option (List Nodo)
  | [] => none
  | inicio :: resto =>
      match backtrack g g.nodes.length [inicio] [inicio] with
      | some camino =>
          if pyTruthy camino then some camino else probarInicios g resto
      | none => probarInicios g resto

/-- Method encontrar_camino_hamiltoniano of AnalizadorHamiltoniano (src/main.py
lines 50 to 75): with fewer than 2 nodes the node list itself is returned and
no search runs; otherwise the backtracking search is started from every node in
insertion order. -/
def encontrar_camino_hamiltoniano (c : CircuitoElectronico) : Option (List Nodo) :=
  let nodos := c.grafo.nodes
  if nodos.length < 2 then some nodos
  else probarInicios c.grafo nodos

/-- Method encontrar_ciclo_hamiltoniano of AnalizadorHamiltoniano (src/main.py
lines 77 to 86): run the path search once; a falsy result (absent or empty)
yields no cycle; otherwise the cycle closes exactly when the graph has an edge
from the last to the first path node. -/
def encontrar_ciclo_hamiltoniano (c : CircuitoElectronico) : Option (List Nodo) :=
  match encontrar_camino_hamiltoniano c with
  | none => none
  | some camino =>
      if pyTruthy camino then
        if hasEdge c.grafo (camino.getLastD "") (camino.headD "") then
          some (camino ++ [camino.headD ""])
        else none
      else none

/-- Internal failures of the Python runtime that the try block of
es_hamiltoniano would catch (for example a RecursionError on a deep search). -/
inductive ErrorInterno where
  | excepcion : String → ErrorInterno
  deriving DecidableEq

/-- The except handler of es_hamiltoniano (src/main.py lines 42 to 48): an
error collapses to false, a normal completion reports whether the search
result is not None. -/
def es_hamiltoniano_de (resultado : Except ErrorInterno (Option (List Nodo))) : Bool :=
  match resultado with
  | Except.error _ => false
  | Except.ok camino => camino.isSome

/-- Method es_hamiltoniano of AnalizadorHamiltoniano: the embedded search is a
total function, so the normal completion branch of the handler is taken. -/
def es_hamiltoniano (c : CircuitoElectronico) : Bool :=
  es_hamiltoniano_de (Except.ok (encontrar_camino_hamiltoniano c))

/-- The weight lookup of calcular_eficiencia_energetica (src/main.py lines 95
to 101): the ordered pair is tried first, then the reversed pair, and 1.0 is
the default when neither orientation is stored. -/
def pesoConexion (c : CircuitoElectronico) (a b : Nodo) : Peso :=
  match dictGet? c.conexiones (a, b) with
  | some w => w
  | none =>
      match dictGet? c.conexiones (b, a) with
      | some w => w
      | none => 1

/-- The accumulation loop of calcular_eficiencia_energetica: sum of
pesoConexion over the consecutive pairs of the path. -/
def resistenciaTotal (c : CircuitoElectronico) : List Nodo → Peso
  | a :: b :: resto => pesoConexion c a b + resistenciaTotal c (b :: resto)
  | _ => 0

/-- Method calcular_eficiencia_energetica of AnalizadorHamiltoniano
(src/main.py lines 88 to 104): falsy or short paths give 0, otherwise the
efficiency is the reciprocal of one plus the total resistance. -/
def calcular_eficiencia_energetica (c : CircuitoElectronico) (camino : List Nodo) : Peso :=
  if !pyTruthy camino || camino.length < 2 then 0
  else 1 / (1 + resistenciaTotal c camino)

/-- State passing form of encontrar_camino_hamiltoniano: the method body reads
self.circuito but never assigns to it or to its fields, so the circuit
component of the state is returned unchanged. -/
def encontrarCaminoM (c : CircuitoElectronico) : Option (List Nodo) × CircuitoElectronico :=
  (encontrar_camino_hamiltoniano c, c)

/-- State passing form of encontrar_ciclo_hamiltoniano; the method performs no
writes to the circuit. -/
def encontrarCicloM (c : CircuitoElectronico) : Option (List Nodo) × CircuitoElectronico :=
  (encontrar_ciclo_hamiltoniano c, c)

/-- State passing form of calcular_eficiencia_energetica; the method performs
no writes to the circuit. -/
def calcularEficienciaM (c : CircuitoElectronico) (camino : List Nodo) :
    Peso × CircuitoElectronico :=
  (calcular_eficiencia_energetica c camino, c)

/-- Errors named by the specification for the graph mutation operations. -/
inductive GraphError where
  | duplicateComponent
  | unknownComponent
  | invalidConnection
  deriving DecidableEq

/-- Modelled from the spec: addComponent fails with DuplicateComponentError if
the id already exists, otherwise inserts the component with no connections.
This claimed behavior is absent from agregar_componente in the source; it is
stated here only to be compared with the source function. -/
def addComponentSpec (c : CircuitoElectronico) (idComponente : Nodo) (tipo : Tipo)
    (posicion : Option Posicion) : Except GraphError CircuitoElectronico :=
  if (dictGet? c.componentes idComponente).isSome then
    Except.error GraphError.duplicateComponent
  else Except.ok (agregar_componente c idComponente tipo posicion)

/-- Modelled from the spec: addConnection fails with UnknownComponentError if
either id is absent and with InvalidConnectionError on a self connection.
This claimed behavior is absent from agregar_conexion in the source; it is
stated here only to be compared with the source function. -/
def addConnectionSpec (c : CircuitoElectronico) (comp1 comp2 : Nodo)
    (resistencia : Peso) : Except GraphError CircuitoElectronico :=
  if (dictGet? c.componentes comp1).isNone || (dictGet? c.componentes comp2).isNone then
    Except.error GraphError.unknownComponent
  else if comp1 = comp2 then Except.error GraphError.invalidConnection
  else Except.ok (agregar_conexion c comp1 comp2 resistencia)

/-- Construction steps of a circuit, mirroring the two mutation methods. -/
inductive PasoConstruccion where
  | comp : Nodo → Tipo → Option Posicion → PasoConstruccion
  | conn : Nodo → Nodo → Peso → PasoConstruccion
  deriving DecidableEq

/-- Apply one construction step to a circuit. -/
def aplicarPaso (c : CircuitoElectronico) : PasoConstruccion → CircuitoElectronico
  | PasoConstruccion.comp i t p => agregar_componente c i t p
  | PasoConstruccion.conn a b w => agregar_conexion c a b w

/-- Build a circuit from a construction sequence, as the application does
component by component and connection by connection. -/
def construir (pasos : List PasoConstruccion) : CircuitoElectronico :=
  pasos.foldl aplicarPaso (CircuitoElectronico.nuevo "Circuito")

/-- Construction sequence of a four node ring, the cycle graph of section 8 of
the specification. -/
def pasosAnillo : List PasoConstruccion :=
  [PasoConstruccion.comp "A" "Resistor" none,
   PasoConstruccion.comp "B" "Capacitor" none,
   PasoConstruccion.comp "C" "Inductor" none,
   PasoConstruccion.comp "D" "Transistor" none,
   PasoConstruccion.conn "A" "B" 1,
   PasoConstruccion.conn "B" "C" 1,
   PasoConstruccion.conn "C" "D" 1,
   PasoConstruccion.conn "D" "A" 1]

/-- The four node ring circuit. -/
def anillo : CircuitoElectronico := construir pasosAnillo

/-- A circuit on which the first discovered Hamiltonian path has non adjacent
endpoints while a different Hamiltonian path with adjacent endpoints exists:
nodes A B C D, edges A-B, B-C, C-A, C-D, D-B in that insertion order. -/
def cDosCaminos : CircuitoElectronico :=
  construir
    [PasoConstruccion.comp "A" "Resistor" none,
     PasoConstruccion.comp "B" "Capacitor" none,
     PasoConstruccion.comp "C" "Inductor" none,
     PasoConstruccion.comp "D" "Transistor" none,
     PasoConstruccion.conn "A" "B" 1,
     PasoConstruccion.conn "B" "C" 1,
     PasoConstruccion.conn "C" "A" 1,
     PasoConstruccion.conn "C" "D" 1,
     PasoConstruccion.conn "D" "B" 1]

/-- A circuit with a single component. -/
def unNodo : CircuitoElectronico :=
  agregar_componente (CircuitoElectronico.nuevo "C") "A" "Resistor" none

/-- A small weighted circuit used to exercise the efficiency evaluator:
components A B C, weights 10 on A-B and 5 on B-C. -/
def cPesos : CircuitoElectronico :=
  construir
    [PasoConstruccion.comp "A" "Resistor" none,
     PasoConstruccion.comp "B" "Capacitor" none,
     PasoConstruccion.comp "C" "Inductor" none,
     PasoConstruccion.conn "A" "B" 10,
     PasoConstruccion.conn "B" "C" 5]

/-- Claim side formulation of the total weight of a path: the sum, over the
consecutive pairs of the path, of the stored weight looked up in either
orientation with default 1. To be compared with the accumulation loop
resistenciaTotal taken from the source. -/
def pesoTotalPares (c : CircuitoElectronico) (camino : List Nodo) : Peso :=
  ((camino.zip camino.tail).map (fun par => pesoConexion c par.1 par.2)).sum

/-- A circuit with two components and no connections. -/
def cDosComp : CircuitoElectronico :=
  construir
    [PasoConstruccion.comp "A" "Resistor" none,
     PasoConstruccion.comp "B" "Capacitor" none]

/-! Lemmas about the dict embedding. -/

theorem dictGet?_dictSet {α β : Type} [DecidableEq α] (d : List (α × β)) (k k' : α) (v : β) :
    dictGet? (dictSet d k v) k' = if k' = k then some v else dictGet? d k' := by
  induction d with
  | nil =>
      by_cases h : k' = k
      · simp [dictSet, dictGet?, h]
      · have h2 : ¬k = k' := fun hh => h hh.symm
        simp [dictSet, dictGet?, h, h2]
  | cons par resto ih =>
      obtain ⟨k₀, v₀⟩ := par
      by_cases h0 : k₀ = k
      · subst h0
        by_cases h : k' = k₀
        · subst h
          simp [dictSet, dictGet?]
        · have h2 : ¬k₀ = k' := fun hh => h hh.symm
          simp [dictSet, dictGet?, h, h2]
      · by_cases h1 : k₀ = k'
        · subst h1
          have h2 : ¬k₀ = k := h0
          simp [dictSet, dictGet?, h0, h2]
        · simp [dictSet, dictGet?, h0, h1, ih]

theorem dictSet_length {α β : Type} [DecidableEq α] (d : List (α × β)) (k : α) (v : β) :
    (dictSet d k v).length =
      if (dictGet? d k).isSome then d.length else d.length + 1 := by
  induction d with
  | nil => simp [dictSet, dictGet?]
  | cons par resto ih =>
      obtain ⟨k₀, v₀⟩ := par
      by_cases h0 : k₀ = k
      · simp [dictSet, dictGet?, h0]
      · simp [dictSet, dictGet?, h0, ih]
        split <;> simp

theorem dictGet?_mem {α β : Type} [DecidableEq α] {d : List (α × β)} {k : α} {v : β}
    (h : dictGet? d k = some v) : (k, v) ∈ d := by
  induction d with
  | nil => simp [dictGet?] at h
  | cons par resto ih =>
      obtain ⟨k₀, v₀⟩ := par
      by_cases h0 : k₀ = k
      · subst h0
        simp [dictGet?] at h
        simp [h]
      · simp [dictGet?, h0] at h
        simp [ih h]

theorem dictGet?_append_of_none {α β : Type} [DecidableEq α] {d : List (α × β)} {k : α}
    (d' : List (α × β)) (h : dictGet? d k = none) :
    dictGet? (d ++ d') k = dictGet? d' k := by
  induction d with
  | nil => simp
  | cons par resto ih =>
      obtain ⟨k₀, v₀⟩ := par
      by_cases h0 : k₀ = k
      · simp [dictGet?, h0] at h
      · simp [dictGet?, h0] at h ⊢
        exact ih h

theorem dictSet_of_none {α β : Type} [DecidableEq α] {d : List (α × β)} {k : α} (v : β)
    (h : dictGet? d k = none) : dictSet d k v = d ++ [(k, v)] := by
  induction d with
  | nil => simp [dictSet]
  | cons par resto ih =>
      obtain ⟨k₀, v₀⟩ := par
      by_cases h0 : k₀ = k
      · simp [dictGet?, h0] at h
      · simp [dictGet?, h0] at h
        simp [dictSet, h0, ih h]

/-! Lemmas about the graph embedding. -/

theorem hasEdge_iff_mem (g : NXGraph) (a b : Nodo) :
    hasEdge g a b = true ↔ b ∈ vecinos g a := by
  simp [hasEdge]

theorem adjInsert_nodes (g : NXGraph) (u v : Nodo) :
    (adjInsert g u v).nodes = g.nodes := by
  unfold adjInsert
  split <;> rfl

theorem adjInsert_attrs (g : NXGraph) (u v : Nodo) :
    (adjInsert g u v).attrs = g.attrs := by
  unfold adjInsert
  split <;> rfl

theorem mem_vecinos_adjInsert_self (g : NXGraph) (u v : Nodo) :
    v ∈ vecinos (adjInsert g u v) u := by
  unfold adjInsert
  split
  · assumption
  · simp [vecinos, dictGet?_dictSet]

theorem mem_vecinos_adjInsert_of_mem (g : NXGraph) (u' v' u x : Nodo)
    (h : x ∈ vecinos g u) : x ∈ vecinos (adjInsert g u' v') u := by
  unfold adjInsert
  split
  · exact h
  · by_cases hu : u = u'
    · subst hu
      simp [vecinos, dictGet?_dictSet]
      left
      simpa [vecinos] using h
    · simpa [vecinos, dictGet?_dictSet, hu] using h

theorem mem_nodes_addNode_self (g : NXGraph) (u : Nodo) : u ∈ (addNode g u).nodes := by
  unfold addNode
  split
  · assumption
  · simp

theorem mem_nodes_addNode_of_mem (g : NXGraph) (u x : Nodo) (h : x ∈ g.nodes) :
    x ∈ (addNode g u).nodes := by
  unfold addNode
  split
  · exact h
  · simp [h]

/-! Soundness of the backtracking search: any returned path is built from a
valid partial state, so it inherits freedom from repeats and the edge chain
property, and it is only returned at full length. -/

/-- Invariant of a partial search state: the path is nonempty and repeat free,
the visited set holds exactly the path members, and consecutive path nodes are
joined by edges. -/
def estadoValido (g : NXGraph) (camino visitados : List Nodo) : Prop :=
  camino ≠ [] ∧ camino.Nodup ∧ (∀ x, x ∈ visitados ↔ x ∈ camino) ∧
    List.Chain' (fun a b => hasEdge g a b = true) camino

/-- Property of any path returned by the search on a graph with the given node
list: full length, repeat free, consecutive nodes joined by edges. -/
def resultadoValido (g : NXGraph) (r : List Nodo) : Prop :=
  r.length = g.nodes.length ∧ r.Nodup ∧
    List.Chain' (fun a b => hasEdge g a b = true) r

theorem getLast?_of_ne_nil {l : List Nodo} (h : l ≠ []) (d : Nodo) :
    l.getLast? = some (l.getLastD d) := by
  cases l with
  | nil => exact absurd rfl h
  | cons a resto => simp [List.getLastD_eq_getLast?, List.getLast?_cons]

theorem estadoValido_extiende (g : NXGraph) (camino visitados : List Nodo) (v : Nodo)
    (h : estadoValido g camino visitados) (hv : v ∉ visitados)
    (hvec : v ∈ vecinos g (camino.getLastD "")) :
    estadoValido g (camino ++ [v]) (visitados ++ [v]) := by
  obtain ⟨hne, hnd, hvis, hch⟩ := h
  have hvcam : v ∉ camino := fun hc => hv ((hvis v).mpr hc)
  refine ⟨by simp, ?_, ?_, ?_⟩
  · rw [List.nodup_append]
    refine ⟨hnd, List.nodup_singleton v, ?_⟩
    intro a ha hav
    rw [List.mem_singleton] at hav
    exact hvcam (hav ▸ ha)
  · intro x
    simp only [List.mem_append, List.mem_singleton]
    exact or_congr (hvis x) Iff.rfl
  · rw [List.chain'_append]
    refine ⟨hch, List.chain'_singleton v, ?_⟩
    intro x hx y hy
    rw [getLast?_of_ne_nil hne ""] at hx
    rw [Option.mem_def] at hx
    injection hx with hx
    rw [List.head?_cons, Option.mem_def] at hy
    injection hy with hy
    subst hx
    subst hy
    exact (hasEdge_iff_mem g _ v).mpr hvec

theorem probarVecinos_sound (g : NXGraph)
    (seguir : List Nodo → List Nodo → Option (List Nodo))
    (hseg : ∀ cam vis r, estadoValido g cam vis → seguir cam vis = some r →
      resultadoValido g r) :
    ∀ (pend camino visitados r : List Nodo),
      estadoValido g camino visitados →
      (∀ v ∈ pend, v ∈ vecinos g (camino.getLastD "")) →
      probarVecinos seguir camino visitados pend = some r →
      resultadoValido g r := by
  intro pend
  induction pend with
  | nil =>
      intro camino visitados r _ _ heq
      simp [probarVecinos] at heq
  | cons v resto ih =>
      intro camino visitados r hval hpend heq
      have hpend' : ∀ w ∈ resto, w ∈ vecinos g (camino.getLastD "") :=
        fun w hw => hpend w (List.mem_cons_of_mem v hw)
      unfold probarVecinos at heq
      by_cases hv : v ∈ visitados
      · rw [if_pos hv] at heq
        exact ih camino visitados r hval hpend' heq
      · rw [if_neg hv] at heq
        have hvalext := estadoValido_extiende g camino visitados v hval hv
          (hpend v (List.mem_cons_self v resto))
        cases hseq : seguir (camino ++ [v]) (visitados ++ [v]) with
        | none =>
            rw [hseq] at heq
            exact ih camino visitados r hval hpend' heq
        | some r' =>
            rw [hseq] at heq
            dsimp only at heq
            by_cases ht : pyTruthy r' = true
            · rw [if_pos ht] at heq
              cases heq
              exact hseg _ _ r hvalext hseq
            · rw [if_neg ht] at heq
              exact ih camino visitados r hval hpend' heq

theorem backtrack_sound (g : NXGraph) :
    ∀ (fuel : Nat) (camino visitados r : List Nodo),
      estadoValido g camino visitados →
      backtrack g fuel camino visitados = some r →
      resultadoValido g r := by
  intro fuel
  induction fuel with
  | zero =>
      intro camino visitados r hval heq
      unfold backtrack at heq
      split at heq
      · cases heq
        exact ⟨by assumption, hval.2.1, hval.2.2.2⟩
      · cases heq
  | succ f ihf =>
      intro camino visitados r hval heq
      unfold backtrack at heq
      split at heq
      · cases heq
        exact ⟨by assumption, hval.2.1, hval.2.2.2⟩
      · exact probarVecinos_sound g (backtrack g f)
          (fun cam vis r' hv h => ihf cam vis r' hv h)
          (vecinos g (camino.getLastD "")) camino visitados r hval
          (fun _ h => h) heq

theorem probarInicios_sound (g : NXGraph) :
    ∀ (inicios : List Nodo) (r : List Nodo),
      probarInicios g inicios = some r → resultadoValido g r := by
  intro inicios
  induction inicios with
  | nil =>
      intro r heq
      simp [probarInicios] at heq
  | cons inicio resto ih =>
      intro r heq
      have hval : estadoValido g [inicio] [inicio] :=
        ⟨by simp, List.nodup_singleton inicio, fun x => Iff.rfl,
          List.chain'_singleton inicio⟩
      unfold probarInicios at heq
      cases hseq : backtrack g g.nodes.length [inicio] [inicio] with
      | none =>
          rw [hseq] at heq
          exact ih r heq
      | some camino =>
          rw [hseq] at heq
          dsimp only at heq
          by_cases ht : pyTruthy camino = true
          · rw [if_pos ht] at heq
            cases heq
            exact backtrack_sound g g.nodes.length [inicio] [inicio] r hval hseq
          · rw [if_neg ht] at heq
            exact ih r heq

/-- C1: for every graph, a sequence returned by encontrar_camino_hamiltoniano
on at least 2 components has no repeated ids, its length equals the number of
components, and every consecutive pair of ids is an edge of the graph; on
fewer than 2 components the returned sequence is exactly the component list
itself, no search being run in that branch of the source. -/
theorem camino_hamiltoniano_correcto (c : CircuitoElectronico) :
    (c.grafo.nodes.length < 2 →
      encontrar_camino_hamiltoniano c = some c.grafo.nodes) ∧
    (∀ r : List Nodo, 2 ≤ c.grafo.nodes.length →
      encontrar_camino_hamiltoniano c = some r →
      r.Nodup ∧ r.length = c.grafo.nodes.length ∧
        List.Chain' (fun a b => hasEdge c.grafo a b = true) r) := by
  constructor
  · intro h
    simp [encontrar_camino_hamiltoniano, h]
  · intro r h2 heq
    have hn : ¬c.grafo.nodes.length < 2 := by omega
    unfold encontrar_camino_hamiltoniano at heq
    rw [if_neg hn] at heq
    have hsound := probarInicios_sound c.grafo c.grafo.nodes r heq
    exact ⟨hsound.2.1, hsound.1, hsound.2.2⟩

/-- Witness for C1: the single component circuit takes the trivial branch, and
the path found on the four node ring satisfies all three invariants. -/
theorem camino_hamiltoniano_correcto_testigo :
    encontrar_camino_hamiltoniano unNodo = some unNodo.grafo.nodes ∧
    (List.Nodup ["A", "B", "C", "D"] ∧
      List.length ["A", "B", "C", "D"] = anillo.grafo.nodes.length ∧
      List.Chain' (fun a b => hasEdge anillo.grafo a b = true) ["A", "B", "C", "D"]) :=
  ⟨(camino_hamiltoniano_correcto unNodo).1 (by decide),
   (camino_hamiltoniano_correcto anillo).2 ["A", "B", "C", "D"] (by decide) (by decide)⟩

/-- C2: encontrar_ciclo_hamiltoniano returns the found path with its first id
appended exactly when the single path search returns a nonempty path whose
endpoints are joined by an edge, and returns no cycle in every other case; in
particular on cDosCaminos it returns none although a different Hamiltonian
path with adjacent endpoints (B A C D, closable through the edge D-B) exists
in the graph. -/
theorem ciclo_hamiltoniano_cierre :
    (∀ c : CircuitoElectronico, encontrar_camino_hamiltoniano c = none →
      encontrar_ciclo_hamiltoniano c = none) ∧
    (∀ (c : CircuitoElectronico) (p : List Nodo),
      encontrar_camino_hamiltoniano c = some p → p = [] →
      encontrar_ciclo_hamiltoniano c = none) ∧
    (∀ (c : CircuitoElectronico) (p : List Nodo) (a b : Nodo),
      encontrar_camino_hamiltoniano c = some p → p.head? = some a →
      p.getLast? = some b →
      encontrar_ciclo_hamiltoniano c =
        if hasEdge c.grafo b a then some (p ++ [a]) else none) ∧
    (encontrar_ciclo_hamiltoniano cDosCaminos = none ∧
      List.Nodup ["B", "A", "C", "D"] ∧
      List.length ["B", "A", "C", "D"] = cDosCaminos.grafo.nodes.length ∧
      List.Chain' (fun a b => hasEdge cDosCaminos.grafo a b = true)
        ["B", "A", "C", "D"] ∧
      hasEdge cDosCaminos.grafo "D" "B" = true) := by
  refine ⟨?_, ?_, ?_, ?_⟩
  · intro c h
    unfold encontrar_ciclo_hamiltoniano
    rw [h]
  · intro c p h hp
    subst hp
    unfold encontrar_ciclo_hamiltoniano
    rw [h]
    simp [pyTruthy]
  · intro c p a b h ha hb
    have hne : p ≠ [] := by
      intro h0
      subst h0
      simp at ha
    have ht : pyTruthy p = true := by
      cases p with
      | nil => exact absurd rfl hne
      | cons x xs => rfl
    have hhd : p.headD "" = a := by
      rw [List.headD_eq_head?, ha]
      rfl
    have hlast : p.getLastD "" = b := by
      rw [List.getLastD_eq_getLast?, hb]
      rfl
    unfold encontrar_ciclo_hamiltoniano
    rw [h]
    dsimp only
    rw [if_pos ht, hhd, hlast]
  · refine ⟨by decide, by decide, by decide, ?_, by decide⟩
    simp only [List.chain'_cons, List.chain'_singleton, and_true]
    decide

/-- Witness for C2: on the four node ring the found path is A B C D, its
endpoints are adjacent, and the cycle closes with A appended. -/
theorem ciclo_hamiltoniano_cierre_testigo :
    encontrar_ciclo_hamiltoniano anillo = some ["A", "B", "C", "D", "A"] := by
  have h := ciclo_hamiltoniano_cierre.2.2.1 anillo ["A", "B", "C", "D"] "A" "D"
    (by decide) rfl rfl
  rw [h]
  decide

/-- C8: the boolean existence check never propagates an error: the except
handler collapses any internal failure to false, and on a normal completion
the check returns true exactly when the search result is not absent. -/
theorem es_hamiltoniano_nunca_propaga :
    (∀ e : ErrorInterno, es_hamiltoniano_de (Except.error e) = false) ∧
    (∀ camino : Option (List Nodo),
      es_hamiltoniano_de (Except.ok camino) = camino.isSome) ∧
    (∀ c : CircuitoElectronico,
      es_hamiltoniano c = (encontrar_camino_hamiltoniano c).isSome) :=
  ⟨fun _ => rfl, fun _ => rfl, fun _ => rfl⟩

/-- C9: the path search is deterministic: two circuits produced by the same
construction sequence give identical search results, and on the ring the
result is the specific first path found under start node insertion order and
neighbor edge insertion order. -/
theorem busqueda_determinista :
    (∀ (pasos : List PasoConstruccion) (c₁ c₂ : CircuitoElectronico),
      c₁ = construir pasos → c₂ = construir pasos →
      encontrar_camino_hamiltoniano c₁ = encontrar_camino_hamiltoniano c₂) ∧
    encontrar_camino_hamiltoniano anillo = some ["A", "B", "C", "D"] := by
  constructor
  · intro pasos c₁ c₂ h₁ h₂
    rw [h₁, h₂]
  · decide

/-- Witness for C9: two runs over the ring construction sequence agree. -/
theorem busqueda_determinista_testigo :
    encontrar_camino_hamiltoniano anillo = encontrar_camino_hamiltoniano anillo :=
  busqueda_determinista.1 pasosAnillo anillo anillo rfl rfl

/-- C10: the analysis operations are pure reads: in state passing form each of
them returns the circuit unchanged, so the component map, the connection map
and the underlying graph are untouched. -/
theorem analisis_sin_mutacion (c : CircuitoElectronico) (camino : List Nodo) :
    (encontrarCaminoM c).2 = c ∧ (encontrarCicloM c).2 = c ∧
    (calcularEficienciaM c camino).2 = c ∧
    (encontrarCaminoM c).2.componentes = c.componentes ∧
    (encontrarCicloM c).2.conexiones = c.conexiones ∧
    (calcularEficienciaM c camino).2.grafo = c.grafo :=
  ⟨rfl, rfl, rfl, rfl, rfl, rfl⟩

/-- Counterexample to C3: calling agregar_componente with the already present
id A does not fail; the stored component type is overwritten and the circuit
changes, while the duplicate rejection described by the spec (modelled in
addComponentSpec) would refuse the call. -/
theorem agregar_componente_duplicado_contraejemplo :
    addComponentSpec unNodo "A" "Capacitor" none =
      Except.error GraphError.duplicateComponent ∧
    dictGet? (agregar_componente unNodo "A" "Capacitor" none).componentes "A" =
      some "Capacitor" ∧
    (agregar_componente unNodo "A" "Capacitor" none).componentes ≠
      unNodo.componentes :=
  ⟨rfl, by decide, by decide⟩

/-- C3 amended: agregar_componente performs no duplicate check. Called with a
fresh id it inserts the component with no connections; called with an id
already among the graph nodes it leaves the node set and the adjacency
unchanged and silently overwrites the stored type, raising no error. The
duplicate rejection of the spec exists only in the UI caller of the source. -/
theorem agregar_componente_comportamiento (c : CircuitoElectronico)
    (idC : Nodo) (tipo : Tipo) (pos : Option Posicion) :
    (idC ∉ c.grafo.nodes → dictGet? c.grafo.adj idC = none →
      dictGet? c.componentes idC = none →
      (agregar_componente c idC tipo pos).grafo.nodes = c.grafo.nodes ++ [idC] ∧
      vecinos (agregar_componente c idC tipo pos).grafo idC = [] ∧
      (agregar_componente c idC tipo pos).componentes =
        c.componentes ++ [(idC, tipo)] ∧
      (agregar_componente c idC tipo pos).conexiones = c.conexiones) ∧
    (idC ∈ c.grafo.nodes →
      (agregar_componente c idC tipo pos).grafo.nodes = c.grafo.nodes ∧
      vecinos (agregar_componente c idC tipo pos).grafo idC = vecinos c.grafo idC ∧
      dictGet? (agregar_componente c idC tipo pos).componentes idC = some tipo ∧
      (agregar_componente c idC tipo pos).conexiones = c.conexiones) := by
  constructor
  · intro hn hadj hcomp
    cases pos with
    | none =>
        refine ⟨?_, ?_, ?_, rfl⟩
        · simp [agregar_componente, addNode, hn]
        · simp [agregar_componente, addNode, hn, vecinos,
            dictGet?_append_of_none _ hadj, dictGet?]
        · simp [agregar_componente, dictSet_of_none _ hcomp]
    | some p =>
        refine ⟨?_, ?_, ?_, rfl⟩
        · simp [agregar_componente, addNode, hn]
        · simp [agregar_componente, addNode, hn, vecinos,
            dictGet?_append_of_none _ hadj, dictGet?]
        · simp [agregar_componente, dictSet_of_none _ hcomp]
  · intro hmem
    cases pos with
    | none =>
        refine ⟨?_, ?_, ?_, rfl⟩
        · simp [agregar_componente, addNode, hmem]
        · simp [agregar_componente, addNode, hmem, vecinos]
        · simp [agregar_componente, dictGet?_dictSet]
    | some p =>
        refine ⟨?_, ?_, ?_, rfl⟩
        · simp [agregar_componente, addNode, hmem]
        · simp [agregar_componente, addNode, hmem, vecinos]
        · simp [agregar_componente, dictGet?_dictSet]

/-- Witness for C3 amended: a fresh insertion on the empty circuit and an
overwriting call on the one component circuit. -/
theorem agregar_componente_comportamiento_testigo :
    ((agregar_componente (CircuitoElectronico.nuevo "C") "A" "Resistor" none).grafo.nodes =
        (CircuitoElectronico.nuevo "C").grafo.nodes ++ ["A"] ∧
      vecinos (agregar_componente (CircuitoElectronico.nuevo "C") "A" "Resistor" none).grafo
          "A" = [] ∧
      (agregar_componente (CircuitoElectronico.nuevo "C") "A" "Resistor" none).componentes =
        (CircuitoElectronico.nuevo "C").componentes ++ [("A", "Resistor")] ∧
      (agregar_componente (CircuitoElectronico.nuevo "C") "A" "Resistor" none).conexiones =
        (CircuitoElectronico.nuevo "C").conexiones) ∧
    ((agregar_componente unNodo "A" "Capacitor" none).grafo.nodes = unNodo.grafo.nodes ∧
      vecinos (agregar_componente unNodo "A" "Capacitor" none).grafo "A" =
        vecinos unNodo.grafo "A" ∧
      dictGet? (agregar_componente unNodo "A" "Capacitor" none).componentes "A" =
        some "Capacitor" ∧
      (agregar_componente unNodo "A" "Capacitor" none).conexiones = unNodo.conexiones) :=
  ⟨(agregar_componente_comportamiento (CircuitoElectronico.nuevo "C") "A" "Resistor" none).1
      (by decide) (by decide) (by decide),
   (agregar_componente_comportamiento unNodo "A" "Capacitor" none).2 (by decide)⟩

/-- Counterexample to C4: agregar_conexion raises no error: on the one
component circuit a self connection on A succeeds and stores a self loop, and
a connection to the absent id B succeeds and silently creates the node B,
while the spec behavior modelled in addConnectionSpec rejects both calls. -/
theorem agregar_conexion_sin_error_contraejemplo :
    addConnectionSpec unNodo "A" "A" 2 =
      Except.error GraphError.invalidConnection ∧
    addConnectionSpec unNodo "A" "B" 3 =
      Except.error GraphError.unknownComponent ∧
    (agregar_conexion unNodo "A" "A" 2).grafo.nodes = ["A"] ∧
    vecinos (agregar_conexion unNodo "A" "A" 2).grafo "A" = ["A"] ∧
    (agregar_conexion unNodo "A" "B" 3).grafo.nodes = ["A", "B"] ∧
    (agregar_conexion unNodo "A" "B" 3).componentes = [("A", "Resistor")] :=
  ⟨rfl, rfl, by decide, by decide, by decide, by decide⟩

/-- C4 amended: agregar_conexion performs no validation: it stores the weight
under the ordered argument pair, records the undirected edge, and ensures both
endpoints are graph nodes, creating them when missing. The id and self
connection checks of the spec exist only in the UI caller of the source. -/
theorem agregar_conexion_sin_validacion (c : CircuitoElectronico) (a b : Nodo)
    (w : Peso) :
    dictGet? (agregar_conexion c a b w).conexiones (a, b) = some w ∧
    hasEdge (agregar_conexion c a b w).grafo a b = true ∧
    hasEdge (agregar_conexion c a b w).grafo b a = true ∧
    a ∈ (agregar_conexion c a b w).grafo.nodes ∧
    b ∈ (agregar_conexion c a b w).grafo.nodes := by
  refine ⟨?_, ?_, ?_, ?_, ?_⟩
  · simp [agregar_conexion, dictGet?_dictSet]
  · rw [hasEdge_iff_mem]
    exact mem_vecinos_adjInsert_of_mem _ b a a b
      (mem_vecinos_adjInsert_self (addNode (addNode c.grafo a) b) a b)
  · rw [hasEdge_iff_mem]
    exact mem_vecinos_adjInsert_self (adjInsert (addNode (addNode c.grafo a) b) a b) b a
  · show a ∈ (adjInsert (adjInsert (addNode (addNode c.grafo a) b) a b) b a).nodes
    rw [adjInsert_nodes, adjInsert_nodes]
    exact mem_nodes_addNode_of_mem _ b a (mem_nodes_addNode_self c.grafo a)
  · show b ∈ (adjInsert (adjInsert (addNode (addNode c.grafo a) b) a b) b a).nodes
    rw [adjInsert_nodes, adjInsert_nodes]
    exact mem_nodes_addNode_self (addNode c.grafo a) b

/-- Counterexample to C5: adding the pair A B with weight 5 and then the pair
B A with weight 7 leaves TWO entries in conexiones, one per orientation, and
the weight lookup is orientation dependent: querying A B returns 5, not the
most recently stored 7. -/
theorem conexion_orientacion_contraejemplo :
    (agregar_conexion (agregar_conexion cDosComp "A" "B" 5) "B" "A" 7).conexiones =
      [(("A", "B"), 5), (("B", "A"), 7)] ∧
    pesoConexion (agregar_conexion (agregar_conexion cDosComp "A" "B" 5) "B" "A" 7)
      "A" "B" = 5 ∧
    pesoConexion (agregar_conexion (agregar_conexion cDosComp "A" "B" 5) "B" "A" 7)
      "B" "A" = 7 ∧
    (5 : Peso) ≠ 7 := by
  refine ⟨?_, ?_, ?_, by norm_num⟩ <;>
    norm_num +decide [cDosComp, construir, aplicarPaso, agregar_conexion,
      agregar_componente, CircuitoElectronico.nuevo, dictSet, dictGet?, pesoConexion]

/-- C5 amended: as long as the reversed orientation of a pair is not stored
separately, the model behaves as the claim says for a fixed orientation:
re-adding the pair in the same orientation overwrites the single entry without
creating a second one, and the weight lookup succeeds in either orientation
with the stored weight. Storing the two orientations separately instead
creates two entries with orientation dependent lookup (see the
counterexample). -/
theorem conexion_sobrescritura (c : CircuitoElectronico) (a b : Nodo)
    (w₁ w₂ : Peso) (hba : dictGet? c.conexiones (b, a) = none) :
    dictGet? (agregar_conexion c a b w₁).conexiones (a, b) = some w₁ ∧
    dictGet? (agregar_conexion (agregar_conexion c a b w₁) a b w₂).conexiones
      (a, b) = some w₂ ∧
    (agregar_conexion (agregar_conexion c a b w₁) a b w₂).conexiones.length =
      (agregar_conexion c a b w₁).conexiones.length ∧
    pesoConexion (agregar_conexion c a b w₁) a b = w₁ ∧
    pesoConexion (agregar_conexion c a b w₁) b a = w₁ := by
  refine ⟨?_, ?_, ?_, ?_, ?_⟩
  · simp [agregar_conexion, dictGet?_dictSet]
  · simp [agregar_conexion, dictGet?_dictSet]
  · simp [agregar_conexion, dictSet_length, dictGet?_dictSet]
  · simp [pesoConexion, agregar_conexion, dictGet?_dictSet]
  · by_cases hab : b = a
    · subst hab
      simp [pesoConexion, agregar_conexion, dictGet?_dictSet]
    · have hne : ((b, a) : Nodo × Nodo) ≠ (a, b) := by
        simp [Prod.ext_iff, hab]
      simp [pesoConexion, agregar_conexion, dictGet?_dictSet, hne, hba]

/-- Witness for C5 amended: both orientations of the lookup return the stored
weight 5 on the two component circuit, and re-adding does not grow the dict. -/
theorem conexion_sobrescritura_testigo :
    dictGet? (agregar_conexion cDosComp "A" "B" 5).conexiones ("A", "B") = some 5 ∧
    dictGet? (agregar_conexion (agregar_conexion cDosComp "A" "B" 5) "A" "B" 7).conexiones
      ("A", "B") = some 7 ∧
    (agregar_conexion (agregar_conexion cDosComp "A" "B" 5) "A" "B" 7).conexiones.length =
      (agregar_conexion cDosComp "A" "B" 5).conexiones.length ∧
    pesoConexion (agregar_conexion cDosComp "A" "B" 5) "A" "B" = 5 ∧
    pesoConexion (agregar_conexion cDosComp "A" "B" 5) "B" "A" = 5 :=
  conexion_sobrescritura cDosComp "A" "B" 5 7 (by decide)

theorem resistenciaTotal_eq_pares (c : CircuitoElectronico) :
    ∀ camino : List Nodo, resistenciaTotal c camino = pesoTotalPares c camino := by
  intro camino
  induction camino with
  | nil => simp [resistenciaTotal, pesoTotalPares]
  | cons a resto ih =>
      cases resto with
      | nil => simp [resistenciaTotal, pesoTotalPares]
      | cons b r =>
          simp only [pesoTotalPares, List.tail_cons, List.zip_cons_cons,
            List.map_cons, List.sum_cons] at ih ⊢
          rw [resistenciaTotal, ih]

/-- C6: calcular_eficiencia_energetica returns 0 on paths of fewer than 2
elements without failing, and otherwise returns the reciprocal of one plus the
total weight, where the total weight sums over every consecutive pair the
stored weight looked up in either orientation with default 1. -/
theorem eficiencia_formula (c : CircuitoElectronico) (camino : List Nodo) :
    calcular_eficiencia_energetica c camino =
      if camino.length < 2 then 0
      else 1 / (1 + pesoTotalPares c camino) := by
  unfold calcular_eficiencia_energetica
  by_cases h : camino.length < 2
  · have hcond : (!pyTruthy camino || decide (camino.length < 2)) = true := by
      simp [h]
    rw [if_pos hcond, if_pos h]
  · have hne : camino ≠ [] := by
      intro h0
      subst h0
      simp at h
    have hcond : (!pyTruthy camino || decide (camino.length < 2)) = false := by
      cases camino with
      | nil => exact absurd rfl hne
      | cons x xs =>
          simp only [List.length_cons] at h
          simp [pyTruthy]
          omega
    rw [if_neg (by simp [hcond]), if_neg h, resistenciaTotal_eq_pares]

theorem pesoConexion_nonneg (c : CircuitoElectronico)
    (h : ∀ e ∈ c.conexiones, 0 ≤ e.2) (a b : Nodo) : 0 ≤ pesoConexion c a b := by
  unfold pesoConexion
  cases h1 : dictGet? c.conexiones (a, b) with
  | some w => exact h _ (dictGet?_mem h1)
  | none =>
      cases h2 : dictGet? c.conexiones (b, a) with
      | some w => exact h _ (dictGet?_mem h2)
      | none => norm_num

theorem resistenciaTotal_nonneg (c : CircuitoElectronico)
    (h : ∀ e ∈ c.conexiones, 0 ≤ e.2) :
    ∀ camino : List Nodo, 0 ≤ resistenciaTotal c camino := by
  intro camino
  induction camino with
  | nil => simp [resistenciaTotal]
  | cons a resto ih =>
      cases resto with
      | nil => simp [resistenciaTotal]
      | cons b r =>
          rw [resistenciaTotal]
          exact add_nonneg (pesoConexion_nonneg c h a b) ih

theorem calcular_eq_of_dos_le (c : CircuitoElectronico) (camino : List Nodo)
    (h : 2 ≤ camino.length) :
    calcular_eficiencia_energetica c camino =
      1 / (1 + resistenciaTotal c camino) := by
  rw [eficiencia_formula, if_neg (by omega), resistenciaTotal_eq_pares]

/-- C7: on circuits whose stored weights are all non negative and paths of at
least 2 elements, the efficiency lies in the interval from 0 exclusive to 1
inclusive, equals 1 exactly when the total weight is 0, and is strictly
decreasing in the total weight. -/
theorem eficiencia_rango_monotonia (c₁ c₂ : CircuitoElectronico)
    (p₁ p₂ : List Nodo)
    (h₁ : ∀ e ∈ c₁.conexiones, 0 ≤ e.2) (h₂ : ∀ e ∈ c₂.conexiones, 0 ≤ e.2)
    (hl₁ : 2 ≤ p₁.length) (hl₂ : 2 ≤ p₂.length) :
    (0 < calcular_eficiencia_energetica c₁ p₁ ∧
      calcular_eficiencia_energetica c₁ p₁ ≤ 1) ∧
    (calcular_eficiencia_energetica c₁ p₁ = 1 ↔ resistenciaTotal c₁ p₁ = 0) ∧
    (resistenciaTotal c₁ p₁ < resistenciaTotal c₂ p₂ →
      calcular_eficiencia_energetica c₂ p₂ < calcular_eficiencia_energetica c₁ p₁) := by
  have e₁ := calcular_eq_of_dos_le c₁ p₁ hl₁
  have e₂ := calcular_eq_of_dos_le c₂ p₂ hl₂
  have hR₁ : 0 ≤ resistenciaTotal c₁ p₁ := resistenciaTotal_nonneg c₁ h₁ p₁
  have hR₂ : 0 ≤ resistenciaTotal c₂ p₂ := resistenciaTotal_nonneg c₂ h₂ p₂
  have hpos₁ : (0 : Peso) < 1 + resistenciaTotal c₁ p₁ := by linarith
  refine ⟨⟨?_, ?_⟩, ?_, ?_⟩
  · rw [e₁]
    exact div_pos zero_lt_one hpos₁
  · rw [e₁]
    rw [div_le_one hpos₁]
    linarith
  · rw [e₁]
    constructor
    · intro h
      have hne : (1 + resistenciaTotal c₁ p₁) ≠ 0 := ne_of_gt hpos₁
      have h2 : (1 : Peso) = 1 + resistenciaTotal c₁ p₁ := by
        field_simp at h
        linarith
      linarith
    · intro h
      rw [h]
      norm_num
  · intro hlt
    rw [e₁, e₂]
    exact one_div_lt_one_div_of_lt hpos₁ (by linarith)

/-- Witness for C7: on the weighted three component circuit, the longer path
has larger total weight and strictly smaller efficiency, and the efficiency of
the short path is positive. -/
theorem eficiencia_rango_monotonia_testigo :
    calcular_eficiencia_energetica cPesos ["A", "B", "C"] <
      calcular_eficiencia_energetica cPesos ["A", "B"] ∧
    0 < calcular_eficiencia_energetica cPesos ["A", "B"] := by
  have hlist : cPesos.conexiones = [(("A", "B"), (10 : Peso)), (("B", "C"), 5)] := by
    norm_num +decide [cPesos, construir, aplicarPaso, agregar_conexion,
      agregar_componente, CircuitoElectronico.nuevo, dictSet]
  have hconex : ∀ e ∈ cPesos.conexiones, (0 : Peso) ≤ e.2 := by
    rw [hlist]
    intro e he
    simp only [List.mem_cons, List.mem_singleton] at he
    rcases he with h | h | h
    · subst h; norm_num
    · subst h; norm_num
    · simp at h
  have hr : resistenciaTotal cPesos ["A", "B"] < resistenciaTotal cPesos ["A", "B", "C"] := by
    norm_num +decide [resistenciaTotal, pesoConexion, cPesos, construir, aplicarPaso,
      agregar_conexion, agregar_componente, CircuitoElectronico.nuevo, dictSet, dictGet?]
  have h := eficiencia_rango_monotonia cPesos cPesos ["A", "B"] ["A", "B", "C"]
    hconex hconex (by decide) (by decide)
  exact ⟨h.2.2 hr, h.1.1⟩

end Circuitos
